import Mathlib

/-!
# basic_linux_shell: a shallow embedding of `main.c`

The shell process is modelled by explicit state passing.

* A C string is the list of its characters; `char* line` is a buffer whose
  string content ends at the first NUL (`cstr`).
* `char** args` on the heap is a list of slots (`Slot`), one per allocated
  pointer; its length is the allocated capacity.  A write outside the block is
  undefined behaviour (`Outcome.fault`).
* A NULL-terminated argument vector handed to the dispatcher is the list of
  its tokens (`Argv`); the sentinel is the position right after the last one.
* `World` is the observable state of the process: working directory, the two
  output streams and the log of calls made so far.
* `Env` is everything the code does not decide: whether an allocation, a
  `chdir`, a `fork` or an `execvp` succeeds, what `wait` reports, what `perror`
  appends for the current `errno`.  Each oracle sees the whole `World`, hence
  the whole history.  Blocking calls (`getline`, `wait`) are modelled at the
  point where they return.
* The `int` counters of `bls_parse_line` are natural numbers.
-/

namespace BLS

/-! ## Data model -/

/-- A token: the characters of a C string. -/
abbrev Token := List Char

/-- A NULL-terminated argument vector, as the list of its non-NULL entries. -/
abbrev Argv := List Token

/-- One `char*` cell of the heap block `args` points to. -/
inductive Slot where
  | uninit
  | null
  | tok (t : Token)
  deriving DecidableEq

/-- Calls recorded in the log of the process. -/
inductive Call where
  | bls_read_line
  | bls_parse_line (line : List Char)
  | bls_execute_command (args : Argv)
  | bls_launch_command (args : Argv)
  | bls_cd (args : Argv)
  | bls_exit (args : Argv)
  | bls_help (args : Argv)
  | fork
  | wait (status : Int)
  | execvp (file : Token) (argv : Argv)
  | chdir (path : Token)
  deriving DecidableEq

/-- Observable state of the shell process. -/
structure World where
  cwd : List Char
  stdout : List Char
  stderr : List Char
  calls : List Call
  deriving DecidableEq

/-- The environment of the process: the results of library and system calls. -/
structure Env where
  /-- Does `malloc`/`realloc` of a block of `n` pointers succeed. -/
  allocOk : World → Nat → Bool
  /-- Does `chdir(path)` succeed. -/
  chdirOk : World → Token → Bool
  /-- The value `fork()` returns in the modelled process. -/
  fork : World → Int
  /-- The status `wait` stores. -/
  waitStatus : World → Int
  /-- Does `execvp(file, argv)` replace the process image. -/
  execvpOk : World → Token → Argv → Bool
  /-- The text `perror` prints for the current `errno`. -/
  strerror : World → List Char

/-- How a modelled C function ends. -/
inductive Outcome (α : Type) where
  /-- The function returns `v`. -/
  | ret (v : α) (w : World)
  /-- The process terminates through `exit(code)`. -/
  | exit (code : Nat) (w : World)
  /-- The process image is replaced by `execvp(file, argv)`. -/
  | exec (file : Token) (argv : Argv) (w : World)
  /-- Undefined behaviour: an access outside an allocated block or a NULL
  program name. -/
  | fault (w : World)
  /-- The fuel of the model ran out. -/
  | nofuel

/-- Sequencing: continue with `f` when the first computation returns. -/
def Outcome.bind {α β : Type} (o : Outcome α) (f : α → World → Outcome β) : Outcome β :=
  match o with
  | .ret v w => f v w
  | .exit code w => .exit code w
  | .exec file argv w => .exec file argv w
  | .fault w => .fault w
  | .nofuel => .nofuel

/-- Value of `EXIT_SUCCESS` in `<stdlib.h>`. -/
def EXIT_SUCCESS : Nat := 0

/-- Value of `EXIT_FAILURE` in `<stdlib.h>`. -/
def EXIT_FAILURE : Nat := 1

/-- The NUL character that ends a C string. -/
def NUL : Char := Char.ofNat 0

/-- The C string stored at the start of a buffer: everything before the first NUL. -/
def cstr (buf : List Char) : List Char := buf.takeWhile (fun c => c != NUL)

/-! ## Output and logging -/

/-- Append a call to the log. -/
def World.call (w : World) (c : Call) : World := { w with calls := w.calls ++ [c] }

/-- Effect of `printf` with an already formatted text. -/
def World.printf (w : World) (s : List Char) : World := { w with stdout := w.stdout ++ s }

/-- Effect of `fprintf(stderr, ...)` with an already formatted text. -/
def World.eprintf (w : World) (s : List Char) : World := { w with stderr := w.stderr ++ s }

/-- Effect of `perror(msg)`: the message, a colon and the text for `errno`. -/
def perror (env : Env) (w : World) (msg : List Char) : World :=
  w.eprintf (msg ++ ": ".toList ++ env.strerror w ++ "\n".toList)

/-! ## Builtin table -/

/-- The array `builtin_names`. -/
def builtin_names : List Token := ["cd".toList, "exit".toList, "help".toList]

/-- Number of entries of `funcs`: `sizeof(funcs)/sizeof(funcs[0])`. -/
def get_builtin_funcs_size : Nat := 3

/-! ## Line reader -/

/-- What one call of `getline` on standard input yields. -/
inductive Getline where
  | line (l : List Char)
  | eof
  | error
  deriving DecidableEq

/-- Embedding of `bls_read_line`. -/
def bls_read_line (env : Env) (w : World) (r : Getline) : Outcome (List Char) :=
  let w := w.call .bls_read_line
  match r with
  | .line l => .ret l w
  | .eof => .exit EXIT_SUCCESS w
  | .error => .exit EXIT_FAILURE (perror env w "getline error".toList)

/-! ## Tokenizer -/

/-- Slots allocated at first and added at each growth. -/
def TOKEN_SIZE : Nat := 64

/-- The delimiter string handed to `strtok`. -/
def STRTOK_DELIM : List Char := " \t\n\r\x07".toList

/-- Membership in the delimiter string. -/
def isDelim (c : Char) : Bool := STRTOK_DELIM.contains c

/-- One call of `strtok` with delimiters `STRTOK_DELIM`, resuming at the string
`s`: skip leading delimiters; at the end of the string there is no token;
otherwise the token runs up to the next delimiter, which is overwritten by NUL,
and the scan resumes right after it. -/
def strtok (s : List Char) : Option (Token × List Char) :=
  match s.dropWhile isDelim with
  | [] => none
  | c :: cs =>
    some ((c :: cs).takeWhile (fun x => !isDelim x),
          ((c :: cs).dropWhile (fun x => !isDelim x)).drop 1)

/-- A fresh block of `n` pointers. -/
def malloc (n : Nat) : List Slot := List.replicate n Slot.uninit

/-- The block after `realloc` to `n` pointers: old content, then fresh cells. -/
def realloc (old : List Slot) (n : Nat) : List Slot :=
  old.take n ++ List.replicate (n - old.length) Slot.uninit

/-- The store `args[i] = v`; `none` when `i` is outside the block. -/
def write (args : List Slot) (i : Nat) (v : Slot) : Option (List Slot) :=
  if i < args.length then some (args.set i v) else none

/-- Local variables of `bls_parse_line` inside the loop. -/
structure ParseState where
  args : List Slot
  num_tokens : Nat
  buf_size : Nat

/-- The `while(token)` loop of `bls_parse_line` and the two statements after it.
`cur` is the result of the latest `strtok` call: the token and the saved
position. -/
def parse_while (env : Env) (w : World) :
    Nat → Option (Token × List Char) → ParseState → Outcome (List Slot)
  | _, none, st =>
    match write st.args st.num_tokens Slot.null with
    | none => .fault w
    | some args => .ret args w
  | 0, some _, _ => .nofuel
  | fuel + 1, some (token, saved), st =>
    match write st.args st.num_tokens (Slot.tok token) with
    | none => .fault w
    | some args =>
      let num_tokens := st.num_tokens + 1
      if num_tokens ≥ st.buf_size then
        let buf_size := st.buf_size + TOKEN_SIZE
        if env.allocOk w buf_size then
          parse_while env w fuel (strtok saved) ⟨realloc args buf_size, num_tokens, buf_size⟩
        else
          .exit EXIT_FAILURE (w.eprintf "Parse line, buffer realloc failed\n".toList)
      else
        parse_while env w fuel (strtok saved) ⟨args, num_tokens, st.buf_size⟩

/-- Embedding of `bls_parse_line`.  The loop runs once per token, and a line
has fewer tokens than characters plus one. -/
def bls_parse_line (env : Env) (w : World) (line : List Char) : Outcome (List Slot) :=
  let w := w.call (.bls_parse_line line)
  let buf_size := TOKEN_SIZE
  if env.allocOk w buf_size then
    parse_while env w (line.length + 1) (strtok (cstr line)) ⟨malloc buf_size, 0, buf_size⟩
  else
    .exit EXIT_FAILURE (w.eprintf "Parse line, buffer malloc failed\n".toList)

/-- The argument vector a callee sees in a block: the tokens before the first
NULL; `none` when a cell read on the way is uninitialised or outside the block. -/
def argvOf : List Slot → Option Argv
  | [] => none
  | Slot.uninit :: _ => none
  | Slot.null :: _ => some []
  | Slot.tok t :: rest => (argvOf rest).map (fun ts => t :: ts)

/-- The read `args[i]` on a NULL-terminated vector: `some none` is NULL, and
`none` is a read past the sentinel. -/
def argAt (args : Argv) (i : Nat) : Option (Option Token) :=
  if i ≤ args.length then some args[i]? else none

/-! ## Process launcher -/

/-- Embedding of `bls_launch_command`. -/
def bls_launch_command (env : Env) (w : World) (args : Argv) : Outcome Int :=
  let w := w.call (.bls_launch_command args)
  let child_pid := env.fork w
  let w := w.call .fork
  if child_pid > 0 then
    .ret 1 (w.call (.wait (env.waitStatus w)))
  else if child_pid = 0 then
    match args[0]? with
    | none => .fault w
    | some file =>
      let w := w.call (.execvp file args)
      if env.execvpOk w file args then .exec file args w
      else .exit EXIT_FAILURE (perror env w "Error execvp".toList)
  else
    .ret 1 (perror env w "Error forking".toList)

/-! ## Builtins -/

/-- Embedding of `bls_cd`.  A successful `chdir` makes its argument the working
directory; a failed one changes nothing. -/
def bls_cd (env : Env) (w : World) (args : Argv) : Outcome Int :=
  let w := w.call (.bls_cd args)
  match argAt args 1 with
  | none => .fault w
  | some none => .ret 1 (perror env w "Expected argument to \"cd\"\n".toList)
  | some (some path) =>
    let w1 := w.call (.chdir path)
    if env.chdirOk w path then
      .ret 1 { w1 with cwd := path }
    else
      .ret 1 (w1.eprintf ("chdir to ".toList ++ path ++ " failed\n".toList))

/-- Embedding of `bls_exit`. -/
def bls_exit (_env : Env) (w : World) (args : Argv) : Outcome Int :=
  .ret 0 (w.call (.bls_exit args))

/-- The `for` loop of `bls_help`: `n` iterations left, starting at index `i`. -/
def help_for (w : World) : Nat → Nat → Outcome Unit
  | 0, _ => .ret () w
  | n + 1, i =>
    match builtin_names[i]? with
    | none => .fault w
    | some name => help_for (w.printf (name ++ "\n".toList)) n (i + 1)

/-- Embedding of `bls_help`. -/
def bls_help (_env : Env) (w : World) (args : Argv) : Outcome Int :=
  let w := w.call (.bls_help args)
  let w := w.printf "Welcome to Basic Linux Shell Help Page.\n".toList
  let w := w.printf "Type program names and arguments, and hit enter.\n\n".toList
  let w := w.printf "The following functions are builtin:\n".toList
  (help_for w get_builtin_funcs_size 0).bind fun _ w =>
    let w := w.printf "\nUse the \"man\" command for information on other programs,\n".toList
    .ret 1 w

/-- The array `funcs`, parallel to `builtin_names`. -/
def funcs : List (Env → World → Argv → Outcome Int) := [bls_cd, bls_exit, bls_help]

/-! ## Dispatcher -/

/-- The `for` loop of `bls_execute_command` and the call after it: `n`
iterations left, starting at index `i`; `cmd` is `args[0]`. -/
def execute_for (env : Env) (w : World) (args : Argv) (cmd : Token) : Nat → Nat → Outcome Int
  | 0, _ => bls_launch_command env w args
  | n + 1, i =>
    match builtin_names[i]?, funcs[i]? with
    | some name, some f =>
      if cmd = name then f env w args else execute_for env w args cmd n (i + 1)
    | _, _ => .fault w

/-- Embedding of `bls_execute_command`. -/
def bls_execute_command (env : Env) (w : World) (args : Argv) : Outcome Int :=
  let w := w.call (.bls_execute_command args)
  match args[0]? with
  | none => .ret 1 w
  | some cmd => execute_for env w args cmd get_builtin_funcs_size 0

/-! ## Loop driver -/

/-- The `do ... while(status)` loop of `bls_loop`.  `input` holds the results of
the coming `getline` calls; past its end standard input is at end of file. -/
def bls_loop_fuel (env : Env) : Nat → World → List Getline → Outcome Unit
  | 0, _, _ => .nofuel
  | fuel + 1, w, input =>
    let w := w.printf "> ".toList
    (bls_read_line env w (input.headD Getline.eof)).bind fun line w =>
    (bls_parse_line env w line).bind fun args w =>
    (match argvOf args with
      | none => Outcome.fault w
      | some argv => bls_execute_command env w argv).bind fun status w =>
    if status ≠ 0 then bls_loop_fuel env fuel w input.tail else .ret () w

/-- Embedding of `bls_loop`: every iteration but the last consumes one entry of
`input`, so `input.length + 1` iterations are enough. -/
def bls_loop (env : Env) (w : World) (input : List Getline) : Outcome Unit :=
  bls_loop_fuel env (input.length + 1) w input

/-! ## Program entry -/

/-- Embedding of `bls_init`. -/
def bls_init (w : World) : World := w.printf "Welcome to my Basic Linux Shell!\n".toList

/-- Embedding of `bls_shutdown`. -/
def bls_shutdown (w : World) : World := w.printf "Goodbye!\n".toList

/-- Embedding of `main`. -/
def main (env : Env) (w : World) (input : List Getline) : Outcome Int :=
  (bls_loop env (bls_init w) input).bind fun _ w => .ret 0 (bls_shutdown w)

/-! ## Specification-side definitions -/

/-- The maximal runs of non-delimiter characters of a string, left to right:
the pieces between delimiters, without the empty ones. -/
def maximalRuns (s : List Char) : List Token :=
  (s.splitOnP isDelim).filter (fun t => !t.isEmpty)

/-- The block `bls_parse_line` is to return for the tokens `ts` at capacity
`cap`: the tokens, the NULL sentinel, then cells never written. -/
def argBlock (ts : List Token) (cap : Nat) : List Slot :=
  ts.map Slot.tok ++ Slot.null :: List.replicate (cap - ts.length - 1) Slot.uninit

/-- The state of the loop after the tokens `pre` have been stored. -/
def stateAfter (pre : List Token) : ParseState :=
  ⟨pre.map Slot.tok ++
      List.replicate (TOKEN_SIZE * (pre.length / TOKEN_SIZE + 1) - pre.length) Slot.uninit,
    pre.length, TOKEN_SIZE * (pre.length / TOKEN_SIZE + 1)⟩

/-- Calls that create, await or replace a process. -/
def Call.isProcessCall : Call → Bool
  | .bls_launch_command _ => true
  | .fork => true
  | .wait _ => true
  | .execvp _ _ => true
  | _ => false

/-- The world of the child right after its call of `execvp`. -/
def childWorld (w : World) (cmd : Token) (rest : Argv) : World :=
  ((w.call (.bls_launch_command (cmd :: rest))).call .fork).call (.execvp cmd (cmd :: rest))

/-- The text `bls_help` prints before the list of builtins. -/
def helpBanner : List Char :=
  "Welcome to Basic Linux Shell Help Page.\n".toList ++
  "Type program names and arguments, and hit enter.\n\n".toList ++
  "The following functions are builtin:\n".toList

/-- The builtin names in registry order, one per line. -/
def helpNames : List Char := (builtin_names.map (fun name => name ++ "\n".toList)).flatten

/-- The text `bls_help` prints after the list of builtins. -/
def helpTrailer : List Char :=
  "\nUse the \"man\" command for information on other programs,\n".toList

/-! ## Sample worlds and environments -/

/-- An initial world. -/
def w0 : World := ⟨"/".toList, [], [], []⟩

/-- An environment in which every call succeeds and the process is the parent. -/
def okEnv : Env where
  allocOk := fun _ _ => true
  chdirOk := fun _ _ => true
  fork := fun _ => 1
  waitStatus := fun _ => 0
  execvpOk := fun _ _ _ => true
  strerror := fun _ => "Success".toList

/-- An environment in which `chdir` fails and the process is the child of a
`fork` whose `execvp` fails. -/
def failEnv : Env where
  allocOk := fun _ _ => true
  chdirOk := fun _ _ => false
  fork := fun _ => 0
  waitStatus := fun _ => 0
  execvpOk := fun _ _ _ => false
  strerror := fun _ => "No such file or directory".toList

/-! ## Tokenizer: `strtok` against the maximal runs -/

theorem splitOnP_unfold (p : Char → Bool) (s : List Char) :
    s.splitOnP p = s.takeWhile (fun x => !p x) ::
      (match s.dropWhile (fun x => !p x) with
        | [] => []
        | _ :: r => r.splitOnP p) := by
  induction s with
  | nil => simp
  | cons x xs ih =>
    rw [List.splitOnP_cons]
    by_cases hx : p x = true
    · simp [hx]
    · simp only [hx, if_false]
      rw [ih]
      simp [hx]

theorem maximalRuns_nil : maximalRuns [] = [] := by
  simp [maximalRuns]

theorem maximalRuns_cons_delim (c : Char) (s : List Char) (hc : isDelim c = true) :
    maximalRuns (c :: s) = maximalRuns s := by
  simp [maximalRuns, List.splitOnP_cons, hc]

theorem maximalRuns_dropWhile (s : List Char) :
    maximalRuns (s.dropWhile isDelim) = maximalRuns s := by
  induction s with
  | nil => rfl
  | cons c cs ih =>
    by_cases hc : isDelim c = true
    · rw [List.dropWhile_cons_of_pos hc, ih, maximalRuns_cons_delim c cs hc]
    · rw [List.dropWhile_cons_of_neg hc]

theorem maximalRuns_cons_of_not_delim (c : Char) (cs : List Char) (hc : isDelim c = false) :
    maximalRuns (c :: cs) = (c :: cs).takeWhile (fun x => !isDelim x) ::
      maximalRuns (((c :: cs).dropWhile (fun x => !isDelim x)).drop 1) := by
  unfold maximalRuns
  rw [splitOnP_unfold isDelim (c :: cs)]
  have h1 : (c :: cs).takeWhile (fun x => !isDelim x) = c :: cs.takeWhile (fun x => !isDelim x) := by
    simp [hc]
  rw [h1]
  simp only [List.filter_cons, List.isEmpty_cons, Bool.not_false, if_true]
  congr 1
  cases hd : List.dropWhile (fun x => !isDelim x) (c :: cs) with
  | nil => simp
  | cons d r => simp

theorem strtok_none (s : List Char) (h : strtok s = none) : maximalRuns s = [] := by
  unfold strtok at h
  cases hd : s.dropWhile isDelim with
  | nil => rw [← maximalRuns_dropWhile, hd, maximalRuns_nil]
  | cons c cs => rw [hd] at h; simp at h

theorem strtok_some (s : List Char) (t r : List Char) (h : strtok s = some (t, r)) :
    maximalRuns s = t :: maximalRuns r ∧ r.length < s.length := by
  unfold strtok at h
  cases hd : s.dropWhile isDelim with
  | nil => rw [hd] at h; simp at h
  | cons c cs =>
    rw [hd] at h
    simp only [Option.some.injEq, Prod.mk.injEq] at h
    obtain ⟨ht, hr⟩ := h
    have hc : isDelim c = false := by
      have := List.head_dropWhile_not isDelim s (by rw [hd]; simp)
      simpa [hd] using this
    constructor
    · rw [← maximalRuns_dropWhile, hd, maximalRuns_cons_of_not_delim c cs hc, ht, hr]
    · have h1 : (s.dropWhile isDelim).length ≤ s.length :=
        (List.dropWhile_sublist isDelim).length_le
      have h2 : ((c :: cs).dropWhile (fun x => !isDelim x)).length ≤ cs.length := by
        rw [List.dropWhile_cons_of_pos (by simp [hc])]
        exact (List.dropWhile_sublist _).length_le
      rw [hd] at h1
      rw [← hr, List.length_drop]
      simp only [List.length_cons] at h1
      omega

/-! ## Tokenizer: the argument block -/

theorem write_at_end (pre : List Slot) (k : Nat) (v : Slot) :
    write (pre ++ List.replicate (k + 1) Slot.uninit) pre.length v =
      some (pre ++ v :: List.replicate k Slot.uninit) := by
  unfold write
  rw [if_pos (by simp)]
  simp [List.replicate_succ]

theorem realloc_grow (pre : List Slot) (k n : Nat) (h : pre.length + k ≤ n) :
    realloc (pre ++ List.replicate k Slot.uninit) n =
      pre ++ List.replicate (n - pre.length) Slot.uninit := by
  unfold realloc
  rw [List.take_of_length_le (by simp; omega)]
  have hn : n - pre.length = k + (n - (pre.length + k)) := by omega
  rw [hn, List.replicate_add]
  simp

theorem stateAfter_write (pre : List Token) (v : Slot) :
    write (stateAfter pre).args (stateAfter pre).num_tokens v =
      some (pre.map Slot.tok ++ v ::
        List.replicate (TOKEN_SIZE * (pre.length / TOKEN_SIZE + 1) - pre.length - 1) Slot.uninit) := by
  have hlt : pre.length < TOKEN_SIZE * (pre.length / TOKEN_SIZE + 1) := by
    unfold TOKEN_SIZE; omega
  obtain ⟨k, hk⟩ : ∃ k, TOKEN_SIZE * (pre.length / TOKEN_SIZE + 1) - pre.length = k + 1 :=
    ⟨TOKEN_SIZE * (pre.length / TOKEN_SIZE + 1) - pre.length - 1, by omega⟩
  have := write_at_end (pre.map Slot.tok) k v
  simp only [List.length_map] at this
  simp only [stateAfter, hk, this, Nat.add_sub_cancel]

theorem stateAfter_step (pre : List Token) (t : Token) (args : List Slot)
    (h : write (stateAfter pre).args (stateAfter pre).num_tokens (Slot.tok t) = some args) :
    (if (stateAfter pre).num_tokens + 1 ≥ (stateAfter pre).buf_size then
        (⟨realloc args ((stateAfter pre).buf_size + TOKEN_SIZE), (stateAfter pre).num_tokens + 1,
          (stateAfter pre).buf_size + TOKEN_SIZE⟩ : ParseState)
      else ⟨args, (stateAfter pre).num_tokens + 1, (stateAfter pre).buf_size⟩) =
      stateAfter (pre ++ [t]) := by
  rw [stateAfter_write] at h
  injection h with h
  subst h
  have hlt : pre.length < TOKEN_SIZE * (pre.length / TOKEN_SIZE + 1) := by
    unfold TOKEN_SIZE; omega
  have hpre : pre.map Slot.tok ++ Slot.tok t ::
      List.replicate (TOKEN_SIZE * (pre.length / TOKEN_SIZE + 1) - pre.length - 1) Slot.uninit
      = (pre ++ [t]).map Slot.tok ++
      List.replicate (TOKEN_SIZE * (pre.length / TOKEN_SIZE + 1) - pre.length - 1) Slot.uninit := by
    simp
  rw [hpre]
  by_cases hge : pre.length + 1 ≥ TOKEN_SIZE * (pre.length / TOKEN_SIZE + 1)
  · have hdiv : (pre.length + 1) / TOKEN_SIZE = pre.length / TOKEN_SIZE + 1 := by
      unfold TOKEN_SIZE at *; omega
    simp only [stateAfter, hge, if_true, List.length_append, List.length_singleton, hdiv]
    rw [realloc_grow _ _ _ (by simp; unfold TOKEN_SIZE at *; omega)]
    simp only [List.length_map, List.length_append, List.length_singleton]
    congr 3
  · have hdiv : (pre.length + 1) / TOKEN_SIZE = pre.length / TOKEN_SIZE := by
      unfold TOKEN_SIZE at *; omega
    simp only [stateAfter, hge, if_false, List.length_append, List.length_singleton, hdiv]
    congr 2

theorem parse_while_ok (env : Env) (w : World) (halloc : ∀ n, env.allocOk w n = true) :
    ∀ (fuel : Nat) (s : List Char) (pre : List Token), s.length < fuel →
      parse_while env w fuel (strtok s) (stateAfter pre) =
        .ret (argBlock (pre ++ maximalRuns s)
          (TOKEN_SIZE * ((pre ++ maximalRuns s).length / TOKEN_SIZE + 1))) w := by
  intro fuel
  induction fuel with
  | zero => intro s pre h; omega
  | succ fuel ih =>
    intro s pre hlen
    cases hs : strtok s with
    | none =>
      rw [strtok_none s hs, List.append_nil]
      unfold parse_while
      rw [stateAfter_write]
      simp [argBlock]
    | some p =>
      obtain ⟨t, r⟩ := p
      obtain ⟨hruns, hr⟩ := strtok_some s t r hs
      rw [parse_while]
      rw [stateAfter_write]
      have hstep := stateAfter_step pre t _ (stateAfter_write pre (Slot.tok t))
      simp only [] at hstep ⊢
      by_cases hge : (stateAfter pre).num_tokens + 1 ≥ (stateAfter pre).buf_size
      · rw [if_pos hge] at hstep
        rw [if_pos hge, if_pos (halloc _), hstep, ih r (pre ++ [t]) (by omega), hruns]
        simp
      · rw [if_neg hge] at hstep
        rw [if_neg hge, hstep, ih r (pre ++ [t]) (by omega), hruns]
        simp

theorem parse_while_safe (env : Env) (w : World) :
    ∀ (fuel : Nat) (s : List Char) (pre : List Token), s.length < fuel →
      parse_while env w fuel (strtok s) (stateAfter pre) =
        .ret (argBlock (pre ++ maximalRuns s)
          (TOKEN_SIZE * ((pre ++ maximalRuns s).length / TOKEN_SIZE + 1))) w ∨
      (∃ w1, parse_while env w fuel (strtok s) (stateAfter pre) = .exit EXIT_FAILURE w1) := by
  intro fuel
  induction fuel with
  | zero => intro s pre h; omega
  | succ fuel ih =>
    intro s pre hlen
    cases hs : strtok s with
    | none =>
      left
      rw [strtok_none s hs, List.append_nil]
      unfold parse_while
      rw [stateAfter_write]
      simp [argBlock]
    | some p =>
      obtain ⟨t, r⟩ := p
      obtain ⟨hruns, hr⟩ := strtok_some s t r hs
      have hcat : pre ++ maximalRuns s = (pre ++ [t]) ++ maximalRuns r := by
        rw [hruns]; simp
      rw [parse_while]
      rw [stateAfter_write]
      have hstep := stateAfter_step pre t _ (stateAfter_write pre (Slot.tok t))
      simp only [] at hstep ⊢
      by_cases hge : (stateAfter pre).num_tokens + 1 ≥ (stateAfter pre).buf_size
      · rw [if_pos hge] at hstep
        rw [if_pos hge]
        by_cases ha : env.allocOk w ((stateAfter pre).buf_size + TOKEN_SIZE) = true
        · rw [if_pos ha, hstep, hcat]
          exact ih r (pre ++ [t]) (by omega)
        · rw [if_neg ha]
          exact Or.inr ⟨_, rfl⟩
      · rw [if_neg hge] at hstep
        rw [if_neg hge, hstep, hcat]
        exact ih r (pre ++ [t]) (by omega)

theorem stateAfter_nil : stateAfter [] = ⟨malloc TOKEN_SIZE, 0, TOKEN_SIZE⟩ := by
  simp [stateAfter, malloc, TOKEN_SIZE]

theorem cstr_length_le (line : List Char) : (cstr line).length ≤ line.length :=
  (List.takeWhile_sublist _).length_le

theorem bls_parse_line_ok (env : Env) (w : World) (line : List Char)
    (halloc : ∀ n, env.allocOk (w.call (.bls_parse_line line)) n = true) :
    bls_parse_line env w line =
      .ret (argBlock (maximalRuns (cstr line))
          (TOKEN_SIZE * ((maximalRuns (cstr line)).length / TOKEN_SIZE + 1)))
        (w.call (.bls_parse_line line)) := by
  unfold bls_parse_line
  simp only [halloc, if_true]
  rw [← stateAfter_nil]
  have hlen := cstr_length_le line
  rw [parse_while_ok env _ halloc (line.length + 1) (cstr line) [] (by omega)]
  simp

theorem bls_parse_line_safe (env : Env) (w : World) (line : List Char) :
    bls_parse_line env w line =
      .ret (argBlock (maximalRuns (cstr line))
          (TOKEN_SIZE * ((maximalRuns (cstr line)).length / TOKEN_SIZE + 1)))
        (w.call (.bls_parse_line line)) ∨
    (∃ w1, bls_parse_line env w line = .exit EXIT_FAILURE w1) := by
  unfold bls_parse_line
  by_cases ha : env.allocOk (w.call (.bls_parse_line line)) TOKEN_SIZE = true
  · simp only [ha, if_true]
    rw [← stateAfter_nil]
    have hlen := cstr_length_le line
    have := parse_while_safe env (w.call (.bls_parse_line line)) (line.length + 1) (cstr line) []
      (by omega)
    simpa using this
  · simp only [ha]
    exact Or.inr ⟨_, rfl⟩

theorem argvOf_tokens_null (ts : List Token) (rest : List Slot) :
    argvOf (ts.map Slot.tok ++ Slot.null :: rest) = some ts := by
  induction ts with
  | nil => simp [argvOf]
  | cons t ts ih => simp [argvOf, ih]

theorem argvOf_argBlock (ts : List Token) (cap : Nat) : argvOf (argBlock ts cap) = some ts :=
  argvOf_tokens_null ts _

theorem filter_takeWhile_dropWhile (p : Char → Bool) (s : List Char) :
    s.filter p = s.takeWhile p ++ (s.dropWhile p).filter p := by
  induction s with
  | nil => rfl
  | cons c cs ih =>
    by_cases hc : p c = true
    · simp [hc, ih]
    · simp [hc]

theorem maximalRuns_props : ∀ (n : Nat) (s : List Char), s.length ≤ n →
    (∀ t ∈ maximalRuns s, t ≠ [] ∧ ∀ c ∈ t, isDelim c = false) ∧
    (maximalRuns s).flatten = s.filter (fun c => !isDelim c) := by
  intro n
  induction n with
  | zero =>
    intro s hs
    have : s = [] := List.length_eq_zero.mp (by omega)
    subst this
    simp [maximalRuns_nil]
  | succ n ih =>
    intro s hs
    cases s with
    | nil => simp [maximalRuns_nil]
    | cons c cs =>
      by_cases hc : isDelim c = true
      · rw [maximalRuns_cons_delim c cs hc]
        have := ih cs (by simpa using hs)
        refine ⟨this.1, ?_⟩
        rw [this.2]
        simp [hc]
      · have hc' : isDelim c = false := by simpa using hc
        rw [maximalRuns_cons_of_not_delim c cs hc']
        have hlen : (((c :: cs).dropWhile (fun x => !isDelim x)).drop 1).length ≤ n := by
          rw [List.dropWhile_cons_of_pos (by simp [hc']), List.length_drop]
          have : (cs.dropWhile (fun x => !isDelim x)).length ≤ cs.length :=
            (List.dropWhile_sublist _).length_le
          simp only [List.length_cons] at hs
          omega
        obtain ⟨h1, h2⟩ := ih _ hlen
        constructor
        · intro t ht
          rcases List.mem_cons.mp ht with rfl | ht
          · constructor
            · simp [hc']
            · intro x hx
              have := List.mem_takeWhile_imp hx
              simpa using this
          · exact h1 t ht
        · rw [List.flatten_cons, h2, filter_takeWhile_dropWhile (fun x => !isDelim x) (c :: cs)]
          congr 1
          cases hd : List.dropWhile (fun x => !isDelim x) (c :: cs) with
          | nil => rfl
          | cons d r =>
            have hdd : (!isDelim d) = false := by
              have := List.head_dropWhile_not (fun x => !isDelim x) (c :: cs) (by rw [hd]; simp)
              simpa [hd] using this
            simp [hdd]

theorem maximalRuns_of_all_delim (s : List Char) (h : ∀ c ∈ s, isDelim c = true) :
    maximalRuns s = [] := by
  induction s with
  | nil => exact maximalRuns_nil
  | cons c cs ih =>
    rw [maximalRuns_cons_delim c cs (h c (by simp))]
    exact ih (fun x hx => h x (by simp [hx]))

theorem isDelim_iff (c : Char) :
    isDelim c = true ↔ c = ' ' ∨ c = '\t' ∨ c = '\n' ∨ c = '\r' ∨ c = Char.ofNat 7 := by
  simp [isDelim, STRTOK_DELIM]

/-! ## Builtins and dispatcher -/

theorem funcs_length : funcs.length = get_builtin_funcs_size := rfl

theorem builtin_names_length : builtin_names.length = get_builtin_funcs_size := rfl

theorem help_for_all (w : World) :
    help_for w get_builtin_funcs_size 0 = .ret () (w.printf helpNames) := by
  simp [help_for, get_builtin_funcs_size, builtin_names, helpNames, World.printf]

theorem bls_help_eq (env : Env) (w : World) (args : Argv) :
    bls_help env w args = .ret 1
      { cwd := w.cwd, stdout := w.stdout ++ (helpBanner ++ helpNames ++ helpTrailer),
        stderr := w.stderr, calls := w.calls ++ [Call.bls_help args] } := by
  unfold bls_help
  simp only [help_for_all, Outcome.bind]
  simp [World.printf, World.call, helpBanner, helpTrailer]

theorem bls_execute_command_cons (env : Env) (w : World) (cmd : Token) (rest : Argv) :
    bls_execute_command env w (cmd :: rest) =
      if cmd = "cd".toList then
        bls_cd env (w.call (.bls_execute_command (cmd :: rest))) (cmd :: rest)
      else if cmd = "exit".toList then
        bls_exit env (w.call (.bls_execute_command (cmd :: rest))) (cmd :: rest)
      else if cmd = "help".toList then
        bls_help env (w.call (.bls_execute_command (cmd :: rest))) (cmd :: rest)
      else bls_launch_command env (w.call (.bls_execute_command (cmd :: rest))) (cmd :: rest) := by
  simp only [bls_execute_command, execute_for, get_builtin_funcs_size, builtin_names, funcs,
    List.getElem?_cons_zero, List.getElem?_cons_succ]

theorem bls_execute_command_nil (env : Env) (w : World) :
    bls_execute_command env w [] = .ret 1 (w.call (.bls_execute_command [])) := by
  simp [bls_execute_command]

theorem bls_cd_no_arg (env : Env) (w : World) (cmd : Token) :
    bls_cd env w [cmd] =
      .ret 1 (perror env (w.call (.bls_cd [cmd])) "Expected argument to \"cd\"\n".toList) := by
  simp [bls_cd, argAt]

theorem bls_cd_arg (env : Env) (w : World) (cmd path : Token) (more : Argv) :
    bls_cd env w (cmd :: path :: more) =
      if env.chdirOk (w.call (.bls_cd (cmd :: path :: more))) path then
        .ret 1 { ((w.call (.bls_cd (cmd :: path :: more))).call (.chdir path)) with cwd := path }
      else
        .ret 1 (((w.call (.bls_cd (cmd :: path :: more))).call (.chdir path)).eprintf
          ("chdir to ".toList ++ path ++ " failed\n".toList)) := by
  simp [bls_cd, argAt]

theorem mem_builtin_names (cmd : Token) :
    cmd ∈ builtin_names ↔ cmd = "cd".toList ∨ cmd = "exit".toList ∨ cmd = "help".toList := by
  simp [builtin_names]

theorem bls_launch_command_parent (env : Env) (w : World) (args : Argv)
    (h : env.fork (w.call (.bls_launch_command args)) ≠ 0) :
    ∃ w2, bls_launch_command env w args = .ret 1 w2 := by
  unfold bls_launch_command
  simp only []
  by_cases hpos : env.fork (w.call (.bls_launch_command args)) > 0
  · rw [if_pos hpos]; exact ⟨_, rfl⟩
  · rw [if_neg hpos, if_neg h]; exact ⟨_, rfl⟩

theorem bls_launch_command_child (env : Env) (w : World) (cmd : Token) (rest : Argv)
    (hchild : env.fork (w.call (.bls_launch_command (cmd :: rest))) = 0) :
    bls_launch_command env w (cmd :: rest) =
      if env.execvpOk (childWorld w cmd rest) cmd (cmd :: rest) then
        .exec cmd (cmd :: rest) (childWorld w cmd rest)
      else
        .exit EXIT_FAILURE (perror env (childWorld w cmd rest) "Error execvp".toList) := by
  simp [bls_launch_command, hchild, childWorld]

theorem bls_parse_line_ret (env : Env) (w : World) (line : List Char) (args : List Slot)
    (w2 : World) (h : bls_parse_line env w line = .ret args w2) :
    w2 = w.call (.bls_parse_line line) := by
  rcases bls_parse_line_safe env w line with ha | ⟨w1, hw1⟩
  · rw [ha] at h; injection h with _ h2; exact h2.symm
  · rw [hw1] at h; cases h

theorem bls_loop_fuel_line (env : Env) (fuel : Nat) (w : World) (line : List Char)
    (later : List Getline) (args : List Slot) (w2 : World) (argv : Argv)
    (hparse : bls_parse_line env ((w.printf "> ".toList).call .bls_read_line) line = .ret args w2)
    (hargv : argvOf args = some argv) :
    bls_loop_fuel env (fuel + 1) w (Getline.line line :: later) =
      (bls_execute_command env w2 argv).bind fun status w3 =>
        if status ≠ 0 then bls_loop_fuel env fuel w3 later else .ret () w3 := by
  rw [bls_loop_fuel]
  simp only [List.headD_cons, bls_read_line, Outcome.bind, hparse, hargv, List.tail_cons]

theorem bls_execute_command_ne_nofuel (env : Env) (w : World) (args : Argv) :
    bls_execute_command env w args ≠ .nofuel := by
  cases args with
  | nil => rw [bls_execute_command_nil]; simp
  | cons cmd rest =>
    rw [bls_execute_command_cons]
    split
    · cases rest with
      | nil => rw [bls_cd_no_arg]; simp
      | cons path more => rw [bls_cd_arg]; split <;> simp
    · split
      · simp [bls_exit]
      · split
        · rw [bls_help_eq]; simp
        · unfold bls_launch_command
          simp only []
          split
          · simp
          · split
            · simp only [List.getElem?_cons_zero]
              split <;> simp
            · simp

theorem bls_loop_fuel_ne_nofuel (env : Env) :
    ∀ (input : List Getline) (fuel : Nat) (w : World), input.length < fuel →
      bls_loop_fuel env fuel w input ≠ .nofuel := by
  intro input
  induction input with
  | nil =>
    intro fuel w h
    obtain ⟨f, rfl⟩ : ∃ f, fuel = f + 1 := ⟨fuel - 1, by omega⟩
    simp [bls_loop_fuel, bls_read_line, Outcome.bind]
  | cons r later ih =>
    intro fuel w h
    obtain ⟨f, rfl⟩ : ∃ f, fuel = f + 1 := ⟨fuel - 1, by simp at h; omega⟩
    have hf : later.length < f := by simpa using h
    cases r with
    | eof => simp [bls_loop_fuel, bls_read_line, Outcome.bind]
    | error => simp [bls_loop_fuel, bls_read_line, Outcome.bind]
    | line l =>
      rcases bls_parse_line_safe env ((w.printf "> ".toList).call .bls_read_line) l with
        hp | ⟨w1, hp⟩
      · rw [bls_loop_fuel_line env f w l later _ _ _ hp (argvOf_argBlock _ _)]
        have hne := bls_execute_command_ne_nofuel env
          (((w.printf "> ".toList).call .bls_read_line).call (.bls_parse_line l))
          (maximalRuns (cstr l))
        revert hne
        cases bls_execute_command env
          (((w.printf "> ".toList).call .bls_read_line).call (.bls_parse_line l))
          (maximalRuns (cstr l)) with
        | ret status w3 =>
          intro _
          simp only [Outcome.bind]
          split
          · exact ih f w3 hf
          · simp
        | exit code w3 => intro _; simp [Outcome.bind]
        | exec file argv w3 => intro _; simp [Outcome.bind]
        | fault w3 => intro _; simp [Outcome.bind]
        | nofuel => intro hne; exact absurd rfl hne
      · rw [bls_loop_fuel]
        simp only [List.headD_cons, bls_read_line, Outcome.bind, hp]
        simp

theorem bls_loop_ne_nofuel (env : Env) (w : World) (input : List Getline) :
    bls_loop env w input ≠ .nofuel :=
  bls_loop_fuel_ne_nofuel env input _ w (Nat.lt_succ_self _)

theorem cstr_of_no_nul (line : List Char) (h : ∀ c ∈ line, c ≠ NUL) : cstr line = line := by
  unfold cstr
  rw [List.takeWhile_eq_self_iff]
  intro c hc
  simpa using h c hc

/-! ## The claims -/

/-- C2: a first element equal to `cd`, `exit` or `help` runs the handler of
that name on the same vector, the result is the handler's, and no call that
launches a process is made; any other first element hands the same vector to
`bls_launch_command`, whose result is returned. -/
theorem C2_dispatch_builtin_or_launch (env : Env) (w : World) (cmd : Token) (rest : Argv) :
    (cmd = "cd".toList → bls_execute_command env w (cmd :: rest) =
        bls_cd env (w.call (.bls_execute_command (cmd :: rest))) (cmd :: rest)) ∧
    (cmd = "exit".toList → bls_execute_command env w (cmd :: rest) =
        bls_exit env (w.call (.bls_execute_command (cmd :: rest))) (cmd :: rest)) ∧
    (cmd = "help".toList → bls_execute_command env w (cmd :: rest) =
        bls_help env (w.call (.bls_execute_command (cmd :: rest))) (cmd :: rest)) ∧
    (cmd ∈ builtin_names → ∃ v w2 new,
        bls_execute_command env w (cmd :: rest) = .ret v w2 ∧
        w2.calls = w.calls ++ new ∧ ∀ c ∈ new, c.isProcessCall = false) ∧
    (cmd ∉ builtin_names → bls_execute_command env w (cmd :: rest) =
        bls_launch_command env (w.call (.bls_execute_command (cmd :: rest))) (cmd :: rest)) := by
  refine ⟨?_, ?_, ?_, ?_, ?_⟩
  · intro h; subst h; rw [bls_execute_command_cons]; simp
  · intro h; subst h; rw [bls_execute_command_cons]; simp
  · intro h; subst h; rw [bls_execute_command_cons]; simp
  · intro h
    rw [bls_execute_command_cons]
    rcases (mem_builtin_names cmd).mp h with h | h | h
    · subst h
      rw [if_pos rfl]
      cases rest with
      | nil =>
        rw [bls_cd_no_arg]
        exact ⟨_, _, [.bls_execute_command ["cd".toList], .bls_cd ["cd".toList]], rfl,
          by simp [perror, World.eprintf, World.call], by simp [Call.isProcessCall]⟩
      | cons path more =>
        rw [bls_cd_arg]
        by_cases hok : env.chdirOk
            ((w.call (.bls_execute_command ("cd".toList :: path :: more))).call
              (.bls_cd ("cd".toList :: path :: more))) path = true
        · rw [if_pos hok]
          exact ⟨_, _, [.bls_execute_command ("cd".toList :: path :: more),
            .bls_cd ("cd".toList :: path :: more), .chdir path], rfl,
            by simp [World.call], by simp [Call.isProcessCall]⟩
        · rw [if_neg hok]
          exact ⟨_, _, [.bls_execute_command ("cd".toList :: path :: more),
            .bls_cd ("cd".toList :: path :: more), .chdir path], rfl,
            by simp [World.call, World.eprintf], by simp [Call.isProcessCall]⟩
    · subst h
      rw [if_neg (by decide), if_pos rfl]
      exact ⟨_, _, [.bls_execute_command ("exit".toList :: rest),
        .bls_exit ("exit".toList :: rest)], rfl,
        by simp [World.call], by simp [Call.isProcessCall]⟩
    · subst h
      rw [if_neg (by decide), if_neg (by decide), if_pos rfl, bls_help_eq]
      exact ⟨_, _, [.bls_execute_command ("help".toList :: rest),
        .bls_help ("help".toList :: rest)], rfl,
        by simp [World.call], by simp [Call.isProcessCall]⟩
  · intro h
    rw [mem_builtin_names] at h
    push_neg at h
    rw [bls_execute_command_cons, if_neg h.1, if_neg h.2.1, if_neg h.2.2]

/-- Instance at `cd /tmp`, `exit`, `help` and at the non-builtin `CD`, `exits`, `hel`. -/
theorem C2_dispatch_builtin_or_launch_witness :
    bls_execute_command okEnv w0 ["cd".toList, "/tmp".toList] =
        bls_cd okEnv (w0.call (.bls_execute_command ["cd".toList, "/tmp".toList]))
          ["cd".toList, "/tmp".toList] ∧
    bls_execute_command okEnv w0 ["exit".toList] =
        bls_exit okEnv (w0.call (.bls_execute_command ["exit".toList])) ["exit".toList] ∧
    bls_execute_command okEnv w0 ["help".toList] =
        bls_help okEnv (w0.call (.bls_execute_command ["help".toList])) ["help".toList] ∧
    (∃ v w2 new, bls_execute_command okEnv w0 ["help".toList] = .ret v w2 ∧
        w2.calls = w0.calls ++ new ∧ ∀ c ∈ new, c.isProcessCall = false) ∧
    bls_execute_command okEnv w0 ["CD".toList] =
        bls_launch_command okEnv (w0.call (.bls_execute_command ["CD".toList])) ["CD".toList] ∧
    bls_execute_command okEnv w0 ["exits".toList] =
        bls_launch_command okEnv (w0.call (.bls_execute_command ["exits".toList]))
          ["exits".toList] ∧
    bls_execute_command okEnv w0 ["hel".toList] =
        bls_launch_command okEnv (w0.call (.bls_execute_command ["hel".toList])) ["hel".toList] :=
  ⟨(C2_dispatch_builtin_or_launch okEnv w0 "cd".toList ["/tmp".toList]).1 rfl,
   (C2_dispatch_builtin_or_launch okEnv w0 "exit".toList []).2.1 rfl,
   (C2_dispatch_builtin_or_launch okEnv w0 "help".toList []).2.2.1 rfl,
   (C2_dispatch_builtin_or_launch okEnv w0 "help".toList []).2.2.2.1 (by decide),
   (C2_dispatch_builtin_or_launch okEnv w0 "CD".toList []).2.2.2.2 (by decide),
   (C2_dispatch_builtin_or_launch okEnv w0 "exits".toList []).2.2.2.2 (by decide),
   (C2_dispatch_builtin_or_launch okEnv w0 "hel".toList []).2.2.2.2 (by decide)⟩

/-- C3: on a vector whose first element is `exit` the dispatcher returns 0,
whatever follows; and the loop iteration whose line parses to such a vector is
the last: the loop returns after one prompt, one read, one parse and one
dispatch, whatever input is left. -/
theorem C3_exit_stops_loop (env : Env) (w : World) (line : List Char) (later : List Getline)
    (fuel : Nat) (args : List Slot) (w2 : World) (rest : Argv)
    (hparse : bls_parse_line env ((w.printf "> ".toList).call .bls_read_line) line = .ret args w2)
    (hargv : argvOf args = some ("exit".toList :: rest)) :
    (∀ w1, bls_execute_command env w1 ("exit".toList :: rest) =
      .ret 0 ((w1.call (.bls_execute_command ("exit".toList :: rest))).call
        (.bls_exit ("exit".toList :: rest)))) ∧
    bls_loop_fuel env (fuel + 1) w (Getline.line line :: later) =
      .ret () { cwd := w.cwd, stdout := w.stdout ++ "> ".toList, stderr := w.stderr,
                calls := w.calls ++ [Call.bls_read_line, Call.bls_parse_line line,
                  Call.bls_execute_command ("exit".toList :: rest),
                  Call.bls_exit ("exit".toList :: rest)] } ∧
    bls_loop env w (Getline.line line :: later) =
      .ret () { cwd := w.cwd, stdout := w.stdout ++ "> ".toList, stderr := w.stderr,
                calls := w.calls ++ [Call.bls_read_line, Call.bls_parse_line line,
                  Call.bls_execute_command ("exit".toList :: rest),
                  Call.bls_exit ("exit".toList :: rest)] } := by
  have hex : ∀ w1, bls_execute_command env w1 ("exit".toList :: rest) =
      .ret 0 ((w1.call (.bls_execute_command ("exit".toList :: rest))).call
        (.bls_exit ("exit".toList :: rest))) := by
    intro w1
    rw [bls_execute_command_cons, if_neg (by decide), if_pos rfl]
    rfl
  have hw2 := bls_parse_line_ret env _ line args w2 hparse
  have hstep : ∀ f, bls_loop_fuel env (f + 1) w (Getline.line line :: later) =
      .ret () { cwd := w.cwd, stdout := w.stdout ++ "> ".toList, stderr := w.stderr,
                calls := w.calls ++ [Call.bls_read_line, Call.bls_parse_line line,
                  Call.bls_execute_command ("exit".toList :: rest),
                  Call.bls_exit ("exit".toList :: rest)] } := by
    intro f
    rw [bls_loop_fuel_line env f w line later args w2 _ hparse hargv, hex, hw2]
    simp [Outcome.bind, World.call, World.printf]
  exact ⟨hex, hstep fuel, hstep _⟩

/-- Instance at the line `exit 1 2` followed by a line that is never read. -/
theorem C3_exit_stops_loop_witness :
    bls_parse_line okEnv ((w0.printf "> ".toList).call .bls_read_line) "exit 1 2\n".toList =
      .ret (argBlock ["exit".toList, "1".toList, "2".toList] 64)
        (((w0.printf "> ".toList).call .bls_read_line).call
          (.bls_parse_line "exit 1 2\n".toList)) ∧
    argvOf (argBlock ["exit".toList, "1".toList, "2".toList] 64) =
      some ("exit".toList :: ["1".toList, "2".toList]) ∧
    bls_loop okEnv w0 [Getline.line "exit 1 2\n".toList, Getline.line "ls\n".toList] =
      .ret () { cwd := w0.cwd, stdout := w0.stdout ++ "> ".toList, stderr := w0.stderr,
                calls := w0.calls ++ [Call.bls_read_line,
                  Call.bls_parse_line "exit 1 2\n".toList,
                  Call.bls_execute_command ("exit".toList :: ["1".toList, "2".toList]),
                  Call.bls_exit ("exit".toList :: ["1".toList, "2".toList])] } :=
  ⟨rfl, rfl,
   (C3_exit_stops_loop okEnv w0 "exit 1 2\n".toList [Getline.line "ls\n".toList] 0
      (argBlock ["exit".toList, "1".toList, "2".toList] 64) _
      ["1".toList, "2".toList] rfl rfl).2.2⟩

/-- C4: in a process that is not the child of a `fork`, the dispatcher returns
on every argument vector, with 0 when the first element is `exit` and with 1
otherwise: for the empty command, `cd` whatever `chdir` does, `help`, and an
external command whatever `fork` and `wait` report. -/
theorem C4_continue_unless_exit (env : Env) (w : World) (args : Argv)
    (hparent : ∀ w1, env.fork w1 ≠ 0) :
    ∃ w2, bls_execute_command env w args =
      .ret (if args[0]? = some "exit".toList then 0 else 1) w2 := by
  cases args with
  | nil =>
    rw [bls_execute_command_nil, if_neg (by simp)]
    exact ⟨_, rfl⟩
  | cons cmd rest =>
    rw [bls_execute_command_cons]
    by_cases h2 : cmd = "exit".toList
    · subst h2
      rw [if_neg (by decide), if_pos rfl, if_pos (by simp)]
      exact ⟨_, rfl⟩
    · have hres : (if (cmd :: rest)[0]? = some "exit".toList then (0 : Int) else 1) = 1 :=
        if_neg (by simpa using h2)
      rw [hres, if_neg h2]
      by_cases h1 : cmd = "cd".toList
      · subst h1
        rw [if_pos rfl]
        cases rest with
        | nil => rw [bls_cd_no_arg]; exact ⟨_, rfl⟩
        | cons path more =>
          rw [bls_cd_arg]
          split
          · exact ⟨_, rfl⟩
          · exact ⟨_, rfl⟩
      · rw [if_neg h1]
        by_cases h3 : cmd = "help".toList
        · subst h3
          rw [if_pos rfl, bls_help_eq]
          exact ⟨_, rfl⟩
        · rw [if_neg h3]
          exact bls_launch_command_parent env _ (cmd :: rest) (hparent _)

/-- Instance at `ls -l` in the parent of a successful `fork`. -/
theorem C4_continue_unless_exit_witness :
    (∀ w1, okEnv.fork w1 ≠ 0) ∧
    ∃ w2, bls_execute_command okEnv w0 ["ls".toList, "-l".toList] =
      .ret (if ["ls".toList, "-l".toList][0]? = some "exit".toList then 0 else 1) w2 :=
  ⟨by intro w1; simp [okEnv],
    C4_continue_unless_exit okEnv w0 _ (by intro w1; simp [okEnv])⟩

/-- C5: `bls_cd` without an argument at position 1 calls no `chdir`, keeps the
working directory and appends a diagnostic to the error stream; with an
argument on which `chdir` succeeds the working directory becomes that path;
with an argument on which `chdir` fails the working directory is kept and the
diagnostic appended to the error stream contains the path. -/
theorem C5_cd_working_directory (env : Env) (w : World) (cmd path : Token) (more : Argv) :
    (∃ w2 msg, bls_cd env w [cmd] = .ret 1 w2 ∧ w2.cwd = w.cwd ∧
        w2.calls = w.calls ++ [Call.bls_cd [cmd]] ∧
        w2.stderr = w.stderr ++ msg ∧ msg ≠ [] ∧ w2.stdout = w.stdout) ∧
    (env.chdirOk (w.call (.bls_cd (cmd :: path :: more))) path = true →
      ∃ w2, bls_cd env w (cmd :: path :: more) = .ret 1 w2 ∧ w2.cwd = path ∧
        w2.calls = w.calls ++ [Call.bls_cd (cmd :: path :: more), Call.chdir path] ∧
        w2.stderr = w.stderr ∧ w2.stdout = w.stdout) ∧
    (env.chdirOk (w.call (.bls_cd (cmd :: path :: more))) path = false →
      ∃ w2 msg, bls_cd env w (cmd :: path :: more) = .ret 1 w2 ∧ w2.cwd = w.cwd ∧
        w2.calls = w.calls ++ [Call.bls_cd (cmd :: path :: more), Call.chdir path] ∧
        w2.stderr = w.stderr ++ msg ∧ path <:+: msg ∧ w2.stdout = w.stdout) := by
  refine ⟨?_, ?_, ?_⟩
  · rw [bls_cd_no_arg]
    exact ⟨_, _, rfl, rfl, rfl, rfl, by simp, rfl⟩
  · intro hok
    rw [bls_cd_arg, if_pos hok]
    exact ⟨_, rfl, rfl, by simp [World.call], rfl, rfl⟩
  · intro hfail
    rw [bls_cd_arg, if_neg (by simp [hfail])]
    exact ⟨_, "chdir to ".toList ++ path ++ " failed\n".toList, rfl, rfl,
      by simp [World.call, World.eprintf], rfl, ⟨_, _, rfl⟩, rfl⟩

/-- Instance at `cd /tmp` with a `chdir` that succeeds and `cd /nowhere` with one that fails. -/
theorem C5_cd_working_directory_witness :
    (okEnv.chdirOk (w0.call (.bls_cd ["cd".toList, "/tmp".toList])) "/tmp".toList = true ∧
      ∃ w2, bls_cd okEnv w0 ["cd".toList, "/tmp".toList] = .ret 1 w2 ∧ w2.cwd = "/tmp".toList ∧
        w2.calls = w0.calls ++
          [Call.bls_cd ["cd".toList, "/tmp".toList], Call.chdir "/tmp".toList] ∧
        w2.stderr = w0.stderr ∧ w2.stdout = w0.stdout) ∧
    (failEnv.chdirOk (w0.call (.bls_cd ["cd".toList, "/nowhere".toList])) "/nowhere".toList
        = false ∧
      ∃ w2 msg, bls_cd failEnv w0 ["cd".toList, "/nowhere".toList] = .ret 1 w2 ∧
        w2.cwd = w0.cwd ∧
        w2.calls = w0.calls ++
          [Call.bls_cd ["cd".toList, "/nowhere".toList], Call.chdir "/nowhere".toList] ∧
        w2.stderr = w0.stderr ++ msg ∧ "/nowhere".toList <:+: msg ∧ w2.stdout = w0.stdout) :=
  ⟨⟨rfl, (C5_cd_working_directory okEnv w0 "cd".toList "/tmp".toList []).2.1 rfl⟩,
   ⟨rfl, (C5_cd_working_directory failEnv w0 "cd".toList "/nowhere".toList []).2.2 rfl⟩⟩

/-- C6: when the allocations succeed, a line that is empty or made of
delimiters only parses to a block whose first entry is the NULL sentinel, the
empty vector; on that vector the dispatcher returns 1 and changes neither the
working directory nor an output stream, and the only call it adds to the log
is its own: no handler, no launcher. -/
theorem C6_blank_line_no_effect (env : Env) (w : World) (line : List Char)
    (halloc : ∀ n, env.allocOk (w.call (.bls_parse_line line)) n = true)
    (hblank : ∀ c ∈ line, isDelim c = true) :
    ∃ args : List Slot, bls_parse_line env w line = .ret args (w.call (.bls_parse_line line)) ∧
      args[0]? = some Slot.null ∧ argvOf args = some [] ∧
      ∀ w1, ∃ w2, bls_execute_command env w1 [] = .ret 1 w2 ∧
        w2.cwd = w1.cwd ∧ w2.stdout = w1.stdout ∧ w2.stderr = w1.stderr ∧
        w2.calls = w1.calls ++ [Call.bls_execute_command []] := by
  have hruns : maximalRuns (cstr line) = [] :=
    maximalRuns_of_all_delim _ (fun c hc => hblank c ((List.takeWhile_sublist _).subset hc))
  have hp := bls_parse_line_ok env w line halloc
  rw [hruns] at hp
  refine ⟨_, hp, by simp [argBlock], argvOf_argBlock _ _, ?_⟩
  intro w1
  exact ⟨_, bls_execute_command_nil env w1, rfl, rfl, rfl, rfl⟩

/-- Instance at a line of a space, a tab, a carriage return and a newline. -/
theorem C6_blank_line_no_effect_witness :
    (∀ n, okEnv.allocOk (w0.call (.bls_parse_line " \t\r\n".toList)) n = true) ∧
    (∀ c ∈ " \t\r\n".toList, isDelim c = true) ∧
    ∃ args : List Slot, bls_parse_line okEnv w0 " \t\r\n".toList =
        .ret args (w0.call (.bls_parse_line " \t\r\n".toList)) ∧
      args[0]? = some Slot.null ∧ argvOf args = some [] ∧
      ∀ w1, ∃ w2, bls_execute_command okEnv w1 [] = .ret 1 w2 ∧
        w2.cwd = w1.cwd ∧ w2.stdout = w1.stdout ∧ w2.stderr = w1.stderr ∧
        w2.calls = w1.calls ++ [Call.bls_execute_command []] :=
  ⟨fun _ => rfl, by decide,
    C6_blank_line_no_effect okEnv w0 " \t\r\n".toList (fun _ => rfl) (by decide)⟩

/-- C7: the delimiters are exactly space, tab, newline, carriage return and
the character 7 (`\a`), the five characters of `STRTOK_DELIM`; when the
allocations succeed, every token `bls_parse_line` returns is non-empty and free
of delimiters, and the tokens together are the string in `line` with its
delimiters removed, so every other character is kept as it is. -/
theorem C7_tokens_without_delimiters (env : Env) (w : World) (line : List Char)
    (halloc : ∀ n, env.allocOk (w.call (.bls_parse_line line)) n = true) :
    STRTOK_DELIM = [' ', '\t', '\n', '\r', Char.ofNat 7] ∧
    (∀ c, isDelim c = true ↔ c ∈ STRTOK_DELIM) ∧
    isDelim (Char.ofNat 11) = false ∧ isDelim (Char.ofNat 12) = false ∧
    isDelim (Char.ofNat 34) = false ∧ isDelim (Char.ofNat 39) = false ∧
    isDelim (Char.ofNat 92) = false ∧
    ∃ args ts, bls_parse_line env w line = .ret args (w.call (.bls_parse_line line)) ∧
      argvOf args = some ts ∧
      (∀ t ∈ ts, t ≠ [] ∧ ∀ c ∈ t, isDelim c = false) ∧
      ts.flatten = (cstr line).filter (fun c => !isDelim c) := by
  refine ⟨by decide, fun c => by simp [isDelim], by decide, by decide, by decide, by decide,
    by decide, _, _, bls_parse_line_ok env w line halloc, argvOf_argBlock _ _, ?_, ?_⟩
  · exact (maximalRuns_props _ (cstr line) (le_refl _)).1
  · exact (maximalRuns_props _ (cstr line) (le_refl _)).2

/-- Instance at a line with a vertical tab and a form feed inside its tokens. -/
theorem C7_tokens_without_delimiters_witness :
    (∀ n, okEnv.allocOk (w0.call (.bls_parse_line "a\x0bb  e\x0cf\r\n".toList)) n = true) ∧
    ∃ args ts, bls_parse_line okEnv w0 "a\x0bb  e\x0cf\r\n".toList =
        .ret args (w0.call (.bls_parse_line "a\x0bb  e\x0cf\r\n".toList)) ∧
      argvOf args = some ts ∧
      (∀ t ∈ ts, t ≠ [] ∧ ∀ c ∈ t, isDelim c = false) ∧
      ts.flatten = (cstr "a\x0bb  e\x0cf\r\n".toList).filter (fun c => !isDelim c) :=
  ⟨fun _ => rfl,
    (C7_tokens_without_delimiters okEnv w0 "a\x0bb  e\x0cf\r\n".toList
      (fun _ => rfl)).2.2.2.2.2.2.2⟩

/-- C8: when `fork` returned 0, `bls_launch_command` calls `execvp` with
`args[0]` and the unchanged vector; a successful `execvp` replaces the process
image, a failed one is followed by a diagnostic on the error stream and
`exit(EXIT_FAILURE)`, which is not 0.  Neither the launcher, nor the
dispatcher that called it, nor the loop iteration that called the dispatcher
returns in that process: the loop ends with the same `exec` or `exit`, whatever
input is left. -/
theorem C8_child_never_returns (env : Env) (w : World) (cmd : Token) (rest : Argv)
    (hchild : env.fork (w.call (.bls_launch_command (cmd :: rest))) = 0) :
    (env.execvpOk (childWorld w cmd rest) cmd (cmd :: rest) = true →
      bls_launch_command env w (cmd :: rest) =
        .exec cmd (cmd :: rest) (childWorld w cmd rest)) ∧
    (env.execvpOk (childWorld w cmd rest) cmd (cmd :: rest) = false →
      ∃ w2 msg, bls_launch_command env w (cmd :: rest) = .exit EXIT_FAILURE w2 ∧
        EXIT_FAILURE ≠ 0 ∧ w2.stderr = w.stderr ++ msg ∧ msg ≠ [] ∧
        w2.calls = w.calls ++
          [Call.bls_launch_command (cmd :: rest), Call.fork, Call.execvp cmd (cmd :: rest)]) ∧
    (∀ v w2, bls_launch_command env w (cmd :: rest) ≠ .ret v w2) ∧
    (cmd ∉ builtin_names → ∀ wd, wd.call (.bls_execute_command (cmd :: rest)) = w →
      (∀ v w2, bls_execute_command env wd (cmd :: rest) ≠ .ret v w2) ∧
      ∀ (fuel : Nat) (wl : World) (line : List Char) (later : List Getline) (args : List Slot),
        bls_parse_line env ((wl.printf "> ".toList).call .bls_read_line) line = .ret args wd →
        argvOf args = some (cmd :: rest) →
        bls_loop_fuel env (fuel + 1) wl (Getline.line line :: later) =
          if env.execvpOk (childWorld w cmd rest) cmd (cmd :: rest) then
            .exec cmd (cmd :: rest) (childWorld w cmd rest)
          else
            .exit EXIT_FAILURE (perror env (childWorld w cmd rest) "Error execvp".toList)) := by
  have hl := bls_launch_command_child env w cmd rest hchild
  refine ⟨?_, ?_, ?_, ?_⟩
  · intro hok
    rw [hl, if_pos hok]
  · intro hfail
    rw [hl, if_neg (by simp [hfail])]
    exact ⟨_, _, rfl, by decide, rfl, by simp,
      by simp [perror, World.eprintf, World.call, childWorld]⟩
  · intro v w2
    rw [hl]
    split <;> simp
  · intro hnb wd hwd
    have hd : bls_execute_command env wd (cmd :: rest) = bls_launch_command env w (cmd :: rest) := by
      rw [mem_builtin_names] at hnb
      push_neg at hnb
      rw [bls_execute_command_cons, if_neg hnb.1, if_neg hnb.2.1, if_neg hnb.2.2, hwd]
    constructor
    · intro v w2
      rw [hd, hl]
      split <;> simp
    · intro fuel wl line later args hparse hargv
      rw [bls_loop_fuel_line env fuel wl line later args wd (cmd :: rest) hparse hargv, hd, hl]
      split <;> rfl

/-- Instance at `nosuchprogram` in the child of a `fork`, where `execvp` fails. -/
theorem C8_child_never_returns_witness :
    failEnv.fork (w0.call (.bls_launch_command ["nosuchprogram".toList])) = 0 ∧
    failEnv.execvpOk (childWorld w0 "nosuchprogram".toList []) "nosuchprogram".toList
      ["nosuchprogram".toList] = false ∧
    (∃ w2 msg, bls_launch_command failEnv w0 ["nosuchprogram".toList] = .exit EXIT_FAILURE w2 ∧
        EXIT_FAILURE ≠ 0 ∧ w2.stderr = w0.stderr ++ msg ∧ msg ≠ [] ∧
        w2.calls = w0.calls ++
          [Call.bls_launch_command ["nosuchprogram".toList], Call.fork,
            Call.execvp "nosuchprogram".toList ["nosuchprogram".toList]]) ∧
    (∀ v w2, bls_launch_command failEnv w0 ["nosuchprogram".toList] ≠ .ret v w2) :=
  ⟨rfl, rfl,
   (C8_child_never_returns failEnv w0 "nosuchprogram".toList [] rfl).2.1 rfl,
   (C8_child_never_returns failEnv w0 "nosuchprogram".toList [] rfl).2.2.1⟩

/-- The text `bls_help` writes does not end with the
list of builtin names, whatever banner is taken: it is no banner followed by
that list. -/
theorem C9_help_text_counterexample :
    ¬ ∃ (banner : List Char) (w2 : World), bls_help okEnv w0 [] = .ret 1 w2 ∧
      w2.stdout = w0.stdout ++ (banner ++ "cd\nexit\nhelp\n".toList) := by
  rintro ⟨banner, w2, h1, h2⟩
  rw [bls_help_eq] at h1
  injection h1 with _ hw
  subst hw
  have hsuf : "cd\nexit\nhelp\n".toList <:+ w0.stdout ++ (helpBanner ++ helpNames ++ helpTrailer) :=
    ⟨w0.stdout ++ banner, by rw [List.append_assoc]; exact h2.symm⟩
  revert hsuf
  decide

/-- C9, amended: for any two argument vectors `bls_help` returns 1 and appends
the same text to standard output, and nothing to the error stream: the static
banner, the builtin names in registry order, one per line (`cd`, `exit`,
`help`), and a static closing line. -/
theorem C9_help_ignores_arguments (env : Env) (w : World) (a b : Argv) :
    ∃ wa wb, bls_help env w a = .ret 1 wa ∧ bls_help env w b = .ret 1 wb ∧
      wa.stdout = w.stdout ++ (helpBanner ++ helpNames ++ helpTrailer) ∧
      wb.stdout = w.stdout ++ (helpBanner ++ helpNames ++ helpTrailer) ∧
      helpNames = "cd\nexit\nhelp\n".toList ∧
      helpNames = (builtin_names.map (fun name => name ++ "\n".toList)).flatten ∧
      wa.stderr = w.stderr ∧ wb.stderr = w.stderr ∧ wa.cwd = w.cwd ∧ wb.cwd = w.cwd := by
  refine ⟨_, _, bls_help_eq env w a, bls_help_eq env w b, rfl, rfl, by decide, rfl,
    rfl, rfl, rfl, rfl⟩

end BLS
